import Mathlib

/-!
Verification of the schema-migration and tag-backfill engine of
`src/repo/postgres_migration.rs` (plus the helpers it imports), via a shallow
embedding: the migration ledger is a list of serial numbers, SQL statement
execution and event-content parsing are abstract (they live in the database
engine / serde), and the tag rebuild is modelled concretely on lists of rows.
-/

namespace NostrPg

/-! ### Characters, hex encoding, and string bytes -/

/-- Modelled from the spec: one character of `is_lower_hex` (`crate::utils`,
whose source is not shown): lowercase hexadecimal means a decimal digit or a
lowercase letter `a`-`f`. -/
def isLowerHexChar (c : Char) : Bool :=
  ('0' ≤ c && c ≤ '9') || ('a' ≤ c && c ≤ 'f')

/-- Modelled from the spec: `is_lower_hex` (`crate::utils`, whose source is not
shown): every character of the string is lowercase hexadecimal. -/
def is_lower_hex (s : String) : Bool := s.data.all isLowerHexChar

/-- Modelled from the spec: `single_char_tagname` (`crate::event`, whose source
is not shown): the candidate tag name matches the single-character tag-name
grammar iff it consists of exactly one character, which is returned. -/
def single_char_tagname (s : String) : Option Char :=
  match s.data with
  | [c] => some c
  | _ => none

/-- Value of one hexadecimal digit, upper or lower case (model of the `hex`
crate's digit table), written on code points. -/
def hexDigitVal (c : Char) : Option Nat :=
  if 48 ≤ c.toNat ∧ c.toNat ≤ 57 then some (c.toNat - 48)
  else if 97 ≤ c.toNat ∧ c.toNat ≤ 102 then some (c.toNat - 87)
  else if 65 ≤ c.toNat ∧ c.toNat ≤ 70 then some (c.toNat - 55)
  else none

/-- Model of `hex::decode` on a list of characters: two hex digits per output
byte; fails on odd-length input or on a character that is not a hex digit. -/
def hexDecodeList : List Char → Option (List Nat)
  | [] => some []
  | [_] => none
  | c1 :: c2 :: rest =>
    match hexDigitVal c1, hexDigitVal c2, hexDecodeList rest with
    | some hi, some lo, some bs => some ((16 * hi + lo) :: bs)
    | _, _, _ => none

/-- Model of `hex::decode` on a string. -/
def hexDecode (s : String) : Option (List Nat) := hexDecodeList s.data

/-- Lowercase hex digit character for a nibble, on code points. -/
def hexDigitChar (v : Nat) : Char :=
  Char.ofNat (if v ≤ 9 then v + 48 else v + 87)

def hexEncodeList : List Nat → List Char
  | [] => []
  | b :: bs => hexDigitChar (b / 16) :: hexDigitChar (b % 16) :: hexEncodeList bs

/-- Model of `hex::encode`: lowercase hex rendering of a byte list. -/
def hexEncode (bs : List Nat) : String := ⟨hexEncodeList bs⟩

/-- The UTF-8 bytes of a string (Rust `str::as_bytes`); the byte list underlying
`String.toUTF8`. -/
def strBytes (s : String) : List Nat :=
  (s.data.flatMap String.utf8EncodeChar).map (fun b => b.toNat)

/-! ### Migration runner (`postgres_migration.rs` top level)

The database is a ledger (the `migrations` table: `none` when the table does
not exist yet, otherwise the list of its `serial_number` rows in insertion
order) together with an abstract schema state `σ` acted on by the SQL engine.
Statement execution is the engine's business, so it is a parameter
`exec : String → σ → Option σ` (`none` = statement error, which the code
`unwrap`s into a panic); commit success of a migration's transaction is a
parameter too. A transaction's effects (schema changes and the ledger insert
done inside it) become visible only on commit; any earlier failure rolls the
whole transaction back, which the outcomes below make explicit by carrying the
database state left behind. -/

/-- `struct SimpleSqlMigration`: serial number plus ordered SQL statements. -/
structure SimpleSqlMigration where
  serial_number : Int
  sql : List String

/-- `SimpleSqlMigration::run`: execute each statement in order inside the
transaction, panicking (`none`) at the first failing statement. -/
def SimpleSqlMigration.run (exec : String → σ → Option σ)
    (m : SimpleSqlMigration) (s : σ) : Option σ :=
  m.sql.foldlM (fun st q => exec q st) s

/-- One database state: the `migrations` ledger table and the abstract rest. -/
structure DBState (σ : Type) where
  migrations : Option (List Int)
  schema : σ
  deriving DecidableEq

/-- `enum MigrationResult`. -/
inductive MigrationResult where
  | Upgraded
  | NotNeeded
  deriving DecidableEq

/-- Outcome of `run_migration`: normal return, or a panic/propagated error that
aborts startup, carrying the database state left behind after rollback. -/
inductive RunOutcome (σ : Type) where
  | ok (r : MigrationResult) (db : DBState σ)
  | failed (db : DBState σ)
  deriving DecidableEq

/-- `prepare_migrations_table`: `CREATE TABLE IF NOT EXISTS migrations`. -/
def prepare_migrations_table (db : DBState σ) : DBState σ :=
  match db.migrations with
  | none => { db with migrations := some [] }
  | some _ => db

/-- `SELECT COUNT(*) FROM migrations WHERE serial_number = $1`. -/
def countSerial (l : List Int) (n : Int) : Nat :=
  (l.filter (fun x => x == n)).length

/-- `run_migration`: skip if the serial number is already in the ledger,
otherwise run the statements and the ledger insert in one transaction and
commit. `commitOk` is the engine's verdict on the final commit. A missing
ledger table, a failing statement, or a failing commit panics, leaving the
database unchanged (the transaction was not committed). -/
def run_migration (exec : String → σ → Option σ) (commitOk : Bool)
    (m : SimpleSqlMigration) (db : DBState σ) : RunOutcome σ :=
  match db.migrations with
  | none => .failed db
  | some l =>
    if countSerial l m.serial_number > 0 then
      .ok .NotNeeded db
    else
      match m.run exec db.schema with
      | none => .failed db
      | some s' =>
        if commitOk then
          .ok .Upgraded ⟨some (l ++ [m.serial_number]), s'⟩
        else
          .failed db

/-- `current_version`: `SELECT max(serial_number) FROM migrations`, `unwrap`ped;
`none` models the panic when the table is missing or empty (NULL max). -/
def current_version (db : DBState σ) : Option Int :=
  match db.migrations with
  | none => none
  | some l => l.max?

namespace m001

def VERSION : Int := 1

def migration : SimpleSqlMigration where
  serial_number := VERSION
  sql := ["\n-- Events table\nCREATE TABLE \"event\" (\n\tid bytea NOT NULL,\n\tpub_key bytea NOT NULL,\n\tcreated_at timestamp with time zone NOT NULL,\n\tkind integer NOT NULL,\n\t\"content\" bytea NOT NULL,\n\thidden bit(1) NOT NULL DEFAULT 0::bit(1),\n\tdelegated_by bytea NULL,\n\tfirst_seen timestamp with time zone NOT NULL DEFAULT now(),\n\tCONSTRAINT event_pkey PRIMARY KEY (id)\n);\nCREATE INDEX event_created_at_idx ON \"event\" (created_at,kind);\nCREATE INDEX event_pub_key_idx ON \"event\" (pub_key);\nCREATE INDEX event_delegated_by_idx ON \"event\" (delegated_by);\n\n-- Tags table\nCREATE TABLE \"tag\" (\n\tid int8 NOT NULL GENERATED BY DEFAULT AS IDENTITY,\n\tevent_id bytea NOT NULL,\n\t\"name\" varchar NOT NULL,\n\tvalue bytea NOT NULL,\n\tCONSTRAINT tag_fk FOREIGN KEY (event_id) REFERENCES \"event\"(id) ON DELETE CASCADE\n);\nCREATE INDEX tag_event_id_idx ON tag USING btree (event_id, name);\nCREATE INDEX tag_value_idx ON tag USING btree (value);\n\n-- NIP-05 Verfication table\nCREATE TABLE \"user_verification\" (\n\tid int8 NOT NULL GENERATED BY DEFAULT AS IDENTITY,\n\tevent_id bytea NOT NULL,\n\t\"name\" varchar NOT NULL,\n\tverified_at timestamptz NULL,\n\tfailed_at timestamptz NULL,\n\tfail_count int4 NULL DEFAULT 0,\n\tCONSTRAINT user_verification_pk PRIMARY KEY (id),\n\tCONSTRAINT user_verification_fk FOREIGN KEY (event_id) REFERENCES \"event\"(id) ON DELETE CASCADE\n);\nCREATE INDEX user_verification_event_id_idx ON user_verification USING btree (event_id);\nCREATE INDEX user_verification_name_idx ON user_verification USING btree (name);\n        "]

end m001

namespace m002

def VERSION : Int := 2

def migration : SimpleSqlMigration where
  serial_number := VERSION
  sql := ["\n-- Add tag value column\nALTER TABLE tag ADD COLUMN value_hex bytea;\n-- Remove not-null constraint\nALTER TABLE tag ALTER COLUMN value DROP NOT NULL;\n-- Add value index\nCREATE INDEX tag_value_hex_idx ON tag USING btree (value_hex);\n        "]

end m002

namespace m003

def VERSION : Int := 3

def migration : SimpleSqlMigration where
  serial_number := VERSION
  sql := ["\n-- Add unique constraint on tag\nALTER TABLE tag ADD CONSTRAINT unique_constraint_name UNIQUE (event_id, \"name\", value);\n        "]

end m003

namespace m004

def VERSION : Int := 4

def migration : SimpleSqlMigration where
  serial_number := VERSION
  sql := ["\n-- Create account table\nCREATE TABLE \"account\" (\n    pubkey varchar NOT NULL,\n    is_admitted BOOLEAN NOT NULL DEFAULT FALSE,\n    balance BIGINT NOT NULL DEFAULT 0,\n    tos_accepted_at TIMESTAMP,\n    CONSTRAINT account_pkey PRIMARY KEY (pubkey)\n);\n\nCREATE TYPE status AS ENUM (\x27Paid\x27, \x27Unpaid\x27, \x27Expired\x27);\n\n\nCREATE TABLE \"invoice\" (\n    payment_hash varchar NOT NULL,\n    pubkey varchar NOT NULL,\n    amount BIGINT NOT NULL,\n    status status NOT NULL DEFAULT \x27Unpaid\x27,\n    description varchar,\n    confirmed_at timestamp,\n    created_at timestamp,\n    invoice varchar,\n    CONSTRAINT invoice_payment_hash PRIMARY KEY (payment_hash),\n    CONSTRAINT invoice_pubkey_fkey FOREIGN KEY (pubkey) REFERENCES account (pubkey) ON DELETE CASCADE\n);\n        "]

end m004

/-- Outcome of `run_migrations`: the reported current version on success, or an
aborted startup (panic or propagated error), with the database left behind. -/
inductive RunsOutcome (σ : Type) where
  | ok (version : Int) (db : DBState σ)
  | failed (db : DBState σ)
  deriving DecidableEq

/-- `run_migrations`: prepare the ledger, run m001..m004 in order, invoking the
tag rebuild exactly when m002 reports `Upgraded`. `rebuild` abstracts
`m002::rebuild_tags` at this level (`none` = error, whose transaction was not
committed, so the schema is unchanged); `commits` gives the engine's commit
verdict per serial number. -/
def run_migrations (exec : String → σ → Option σ) (rebuild : σ → Option σ)
    (commits : Int → Bool) (db : DBState σ) : RunsOutcome σ :=
  let db0 := prepare_migrations_table db
  match run_migration exec (commits 1) m001.migration db0 with
  | .failed d => .failed d
  | .ok _ d1 =>
    match run_migration exec (commits 2) m002.migration d1 with
    | .failed d => .failed d
    | .ok m002_result d2 =>
      let afterBackfill : Option (DBState σ) :=
        if m002_result = MigrationResult.Upgraded then
          match rebuild d2.schema with
          | none => none
          | some s' => some ⟨d2.migrations, s'⟩
        else
          some d2
      match afterBackfill with
      | none => .failed d2
      | some d2b =>
        match run_migration exec (commits 3) m003.migration d2b with
        | .failed d => .failed d
        | .ok _ d3 =>
          match run_migration exec (commits 4) m004.migration d3 with
          | .failed d => .failed d
          | .ok _ d4 =>
            match current_version d4 with
            | none => .failed d4
            | some v => .ok v d4

/-! ### Tag backfill (`m002::rebuild_tags`)

Concrete model of the event and tag tables. An event row is its `id` and
`content` byte columns; parsing `content` (UTF-8 decoding plus
`serde_json::from_str::<Event>`, both external) is a parameter producing the
parsed `tags` field, `none` modelling the panic/propagated parse error. A tag
row carries the nullable `value` and `value_hex` byte columns.

`INSERT ... ON CONFLICT DO NOTHING` follows Postgres semantics: with no
conflict target given, a conflict can only arise from a unique
constraint/index on the table. The only unique constraint ever placed on
`tag` is m003's `UNIQUE (event_id, "name", value)`, under which two NULL
`value`s never conflict; `hasUnique` says whether that constraint exists at
insert time (during a startup-sequence backfill it does not, because m003 runs
after the backfill). -/

structure EventRow where
  id : List Nat
  content : List Nat
  deriving DecidableEq

structure TagRow where
  event_id : List Nat
  name : String
  value : Option (List Nat)
  value_hex : Option (List Nat)
  deriving DecidableEq

/-- Conflict under m003's `UNIQUE (event_id, "name", value)`: same event, same
name, and equal non-NULL `value`s (Postgres treats NULLs as distinct). -/
def tagConflicts (a b : TagRow) : Bool :=
  a.event_id == b.event_id && a.name == b.name &&
    match a.value, b.value with
    | some v, some w => v == w
    | _, _ => false

/-- `INSERT INTO tag ... ON CONFLICT DO NOTHING`: a no-op when the unique
constraint exists and an existing row conflicts, a plain append otherwise. -/
def insertTag (hasUnique : Bool) (table : List TagRow) (r : TagRow) : List TagRow :=
  if hasUnique && table.any (fun t => tagConflicts t r) then table else table ++ [r]

/-- Loop body of `rebuild_tags` for one (already length-filtered) tag of one
event: drop it unless its first element matches the single-character tag-name
grammar, then insert into `value_hex` (the decoded bytes, `.ok()`-bound) when
the value is even-byte-length lowercase hex, else insert the raw string bytes
into `value`. -/
def processTag (hasUnique : Bool) (event_id : List Nat) (t : List String)
    (table : List TagRow) : List TagRow :=
  match t with
  | tagname :: tagval :: _ =>
    if (single_char_tagname tagname).isNone then
      table
    else if tagval.utf8ByteSize % 2 == 0 && is_lower_hex tagval then
      insertTag hasUnique table ⟨event_id, tagname, none, hexDecode tagval⟩
    else
      insertTag hasUnique table ⟨event_id, tagname, some (strBytes tagval), none⟩
  | _ => table

/-- `for t in event.tags.iter().filter(|x| x.len() > 1) { ... }`. -/
def processEventTags (hasUnique : Bool) (event_id : List Nat)
    (tags : List (List String)) (table : List TagRow) : List TagRow :=
  (tags.filter (fun x => x.length > 1)).foldl
    (fun tb t => processTag hasUnique event_id t tb) table

/-- The streaming loop over `SELECT id, content FROM event ORDER BY id`,
accumulating inserts in the write transaction; `none` aborts the whole
backfill at the first event whose content fails to parse. -/
def rebuildLoop (parse : List Nat → Option (List (List String))) (hasUnique : Bool) :
    List EventRow → List TagRow → Option (List TagRow)
  | [], acc => some acc
  | e :: rest, acc =>
    match parse e.content with
    | none => none
    | some tags => rebuildLoop parse hasUnique rest (processEventTags hasUnique e.id tags acc)

/-- Outcome of `rebuild_tags`, carrying the resulting state of the tag table. -/
inductive BackfillOutcome where
  | ok (tags : List TagRow)
  | err (tags : List TagRow)
  deriving DecidableEq

/-- `m002::rebuild_tags`: in the write transaction, delete every tag row, then
stream the events and re-insert the derived rows, committing only at the end.
An error anywhere (`?`-propagation) drops the uncommitted write transaction, so
the delete and all inserts roll back and the table keeps its prior rows. -/
def rebuild_tags (parse : List Nat → Option (List (List String))) (hasUnique : Bool)
    (events : List EventRow) (tags0 : List TagRow) : BackfillOutcome :=
  match rebuildLoop parse hasUnique events [] with
  | some t => .ok t
  | none => .err tags0

/-! ### Concrete instantiations used in closed evaluations -/

def execU : String → Unit → Option Unit := fun _ s => some s

def rebuildU : Unit → Option Unit := fun _ => some ()

def commitsAll : Int → Bool := fun _ => true

def execN : String → Nat → Option Nat := fun _ n => some n

def rebuildNone : Nat → Option Nat := fun _ => none

def rebuildBump : Nat → Option Nat := fun n => some (n + 1)

def execBoom : String → Nat → Option Nat :=
  fun q n => if q == "BOOM" then none else some (n + 1)

def migTwo : SimpleSqlMigration := ⟨7, ["ALTER TABLE t ADD COLUMN c int", "BOOM"]⟩

def parseNone : List Nat → Option (List (List String)) := fun _ => none

def parseDup : List Nat → Option (List (List String)) :=
  fun _ => some [["p", "QQ"], ["p", "QQ"]]

def ev0 : EventRow := ⟨[7], [0]⟩

def tr0 : TagRow := ⟨[7], "e", some [1], none⟩

/-! ### Concrete evaluations -/

-- scratch tests
example : is_lower_hex "deadbeef" = true := by decide
example : is_lower_hex "DeadBeef" = false := by decide
example : hexDecode "deadbeef" = some [222, 173, 190, 239] := by decide
example : hexEncode [222, 173, 190, 239] = "deadbeef" := by decide
example : strBytes "QQ" = [81, 81] := by decide
example : "QQ".utf8ByteSize = 2 := by decide
example : single_char_tagname "p" = some 'p' := by decide
example : single_char_tagname "ab" = none := by decide

-- scratch tests for the runner
example :
    run_migrations (fun _ (s : Unit) => some s) (fun _ => some ()) (fun _ => true)
      ⟨some [1, 3], ()⟩ = .ok 4 ⟨some [1, 3, 2, 4], ()⟩ := by decide
example :
    run_migrations (fun _ (s : Unit) => some s) (fun _ => some ()) (fun _ => true)
      ⟨none, ()⟩ = .ok 4 ⟨some [1, 2, 3, 4], ()⟩ := by decide
example :
    run_migrations (fun _ (n : Nat) => some n) (fun _ => none) (fun _ => true)
      ⟨none, 0⟩ = .failed ⟨some [1, 2], 0⟩ := by decide

-- scratch tests for the backfill
example :
    rebuild_tags (fun _ => some [["e", "abc123"], ["e", "abc123"], ["p", "NotHex"]]) false
      [⟨[7], [0]⟩] [] =
      .ok [⟨[7], "e", none, some [0xab, 0xc1, 0x23]⟩,
           ⟨[7], "e", none, some [0xab, 0xc1, 0x23]⟩,
           ⟨[7], "p", some (strBytes "NotHex"), none⟩] := by decide
example :
    rebuild_tags (fun _ => some [["e", "abc123"], ["e", "abc123"], ["p", "NotHex"]]) true
      [⟨[7], [0]⟩] [] =
      .ok [⟨[7], "e", none, some [0xab, 0xc1, 0x23]⟩,
           ⟨[7], "e", none, some [0xab, 0xc1, 0x23]⟩,
           ⟨[7], "p", some (strBytes "NotHex"), none⟩] := by decide
example :
    rebuild_tags (fun _ => some [["x"], ["ab", "y"]]) false [⟨[7], [0]⟩] [] =
      .ok [] := by decide
example :
    rebuild_tags (fun _ => none) false [⟨[7], [0]⟩] [⟨[7], "e", some [1], none⟩] =
      .err [⟨[7], "e", some [1], none⟩] := by decide

/-! ### Character-level lemmas -/

theorem char_toNat_le_of_le {a b : Char} (h : a ≤ b) : a.toNat ≤ b.toNat := by
  rw [Char.le_def, UInt32.le_def, BitVec.le_def] at h
  exact h

theorem isLowerHexChar_cases {c : Char} (h : isLowerHexChar c = true) :
    (48 ≤ c.toNat ∧ c.toNat ≤ 57) ∨ (97 ≤ c.toNat ∧ c.toNat ≤ 102) := by
  simp only [isLowerHexChar, Bool.or_eq_true, Bool.and_eq_true, decide_eq_true_eq] at h
  rcases h with ⟨h1, h2⟩ | ⟨h1, h2⟩
  · exact Or.inl ⟨char_toNat_le_of_le h1, char_toNat_le_of_le h2⟩
  · exact Or.inr ⟨char_toNat_le_of_le h1, char_toNat_le_of_le h2⟩

theorem char_le_iff {a b : Char} : a ≤ b ↔ a.toNat ≤ b.toNat := by
  rw [Char.le_def, UInt32.le_def, BitVec.le_def]
  exact Iff.rfl

theorem lowerHexChar_spec {c : Char} (h : isLowerHexChar c = true) :
    ∃ v, hexDigitVal c = some v ∧ v < 16 ∧ hexDigitChar v = c := by
  rcases isLowerHexChar_cases h with ⟨h1, h2⟩ | ⟨h1, h2⟩
  · refine ⟨c.toNat - 48, ?_, by omega, ?_⟩
    · unfold hexDigitVal
      rw [if_pos (by omega)]
    · unfold hexDigitChar
      rw [if_pos (by omega)]
      have he : c.toNat - 48 + 48 = c.toNat := by omega
      rw [he, Char.ofNat_toNat]
  · refine ⟨c.toNat - 87, ?_, by omega, ?_⟩
    · unfold hexDigitVal
      rw [if_neg (by omega), if_pos (by omega)]
    · unfold hexDigitChar
      rw [if_neg (by omega)]
      have he : c.toNat - 87 + 87 = c.toNat := by omega
      rw [he, Char.ofNat_toNat]

theorem utf8Size_eq_one {c : Char} (h : isLowerHexChar c = true) : c.utf8Size = 1 := by
  have hle : c.toNat ≤ 102 := by
    rcases isLowerHexChar_cases h with ⟨_, h2⟩ | ⟨_, h2⟩ <;> omega
  unfold Char.utf8Size
  rw [if_pos]
  rw [UInt32.le_def, BitVec.le_def]
  exact Nat.le_trans hle (by decide)

theorem utf8ByteSize_eq_length {s : String} (h : is_lower_hex s = true) :
    s.utf8ByteSize = s.length := by
  rcases s with ⟨l⟩
  simp only [is_lower_hex, List.all_eq_true, decide_eq_true_eq] at h
  show String.utf8ByteSize.go l = l.length
  induction l with
  | nil => rfl
  | cons c cs ih =>
    have hc : c.utf8Size = 1 := utf8Size_eq_one (h c (by simp))
    have ih' := ih (fun x hx => h x (by simp [hx]))
    simp only [String.utf8ByteSize.go, hc, ih', List.length_cons]

theorem hexDecodeList_roundtrip :
    ∀ l : List Char, (∀ c ∈ l, isLowerHexChar c = true) → l.length % 2 = 0 →
      ∃ bs, hexDecodeList l = some bs ∧ hexEncodeList bs = l
  | [], _, _ => ⟨[], rfl, rfl⟩
  | [c], _, hpar => absurd hpar (by simp)
  | c1 :: c2 :: rest, hall, hpar => by
    obtain ⟨v1, hv1, hlt1, henc1⟩ := lowerHexChar_spec (hall c1 (by simp))
    obtain ⟨v2, hv2, hlt2, henc2⟩ := lowerHexChar_spec (hall c2 (by simp))
    obtain ⟨bs, hdec, henc⟩ :=
      hexDecodeList_roundtrip rest (fun c hc => hall c (by simp [hc]))
        (by simp only [List.length_cons] at hpar; omega)
    refine ⟨(16 * v1 + v2) :: bs, ?_, ?_⟩
    · simp only [hexDecodeList, hv1, hv2, hdec]
    · have hdiv : (16 * v1 + v2) / 16 = v1 := by omega
      have hmod : (16 * v1 + v2) % 16 = v2 := by omega
      simp only [hexEncodeList, hdiv, hmod, henc1, henc2, henc]

theorem hex_roundtrip {s : String} (heven : s.utf8ByteSize % 2 = 0)
    (hlow : is_lower_hex s = true) :
    ∃ bs, hexDecode s = some bs ∧ hexEncode bs = s := by
  have hlen : s.data.length % 2 = 0 := by
    have he := utf8ByteSize_eq_length hlow
    rw [he] at heven
    exact heven
  obtain ⟨bs, h1, h2⟩ :=
    hexDecodeList_roundtrip s.data
      (by simpa [is_lower_hex, List.all_eq_true] using hlow) hlen
  refine ⟨bs, h1, ?_⟩
  cases s
  simpa [hexEncode] using congrArg String.mk h2

/-! ### Structural lemmas about the runner -/

theorem countSerial_eq_zero {l : List Int} {n : Int} :
    countSerial l n = 0 ↔ n ∉ l := by
  simp only [countSerial, List.length_eq_zero, List.filter_eq_nil_iff, beq_iff_eq]
  exact ⟨fun h hn => h n hn rfl, fun h a ha he => h (he ▸ ha)⟩

theorem countSerial_pos {l : List Int} {n : Int} :
    0 < countSerial l n ↔ n ∈ l := by
  rw [Nat.pos_iff_ne_zero, Ne, countSerial_eq_zero, not_not]

theorem countSerial_append_singleton {l : List Int} {a n : Int} (h : a ≠ n) :
    countSerial (l ++ [a]) n = countSerial l n := by
  simp [countSerial, List.filter_append, h]

theorem prepare_migrations_some {σ} (db : DBState σ) :
    ∃ l, (prepare_migrations_table db).migrations = some l := by
  unfold prepare_migrations_table
  cases h : db.migrations with
  | none => exact ⟨[], rfl⟩
  | some l => exact ⟨l, h⟩

theorem prepare_migrations_eq_self {σ} {db : DBState σ} {l : List Int}
    (h : db.migrations = some l) : prepare_migrations_table db = db := by
  unfold prepare_migrations_table
  rw [h]

theorem run_migration_notNeeded {σ} (exec : String → σ → Option σ) (c : Bool)
    (m : SimpleSqlMigration) (db : DBState σ) (l : List Int)
    (hl : db.migrations = some l) (hmem : m.serial_number ∈ l) :
    run_migration exec c m db = .ok .NotNeeded db := by
  simp only [run_migration, hl]
  rw [if_pos (countSerial_pos.mpr hmem)]

theorem run_migration_ledger {σ} {exec : String → σ → Option σ} {c : Bool}
    {m : SimpleSqlMigration} {db d' : DBState σ} {r : MigrationResult} {l : List Int}
    (hl : db.migrations = some l)
    (h : run_migration exec c m db = .ok r d') :
    d'.migrations =
      some (l ++ if countSerial l m.serial_number = 0 then [m.serial_number] else []) := by
  simp only [run_migration, hl] at h
  by_cases hc : countSerial l m.serial_number > 0
  · rw [if_pos hc] at h
    cases h
    have hne : ¬ countSerial l m.serial_number = 0 := by omega
    simp [hl, hne]
  · rw [if_neg hc] at h
    have h0 : countSerial l m.serial_number = 0 := by omega
    cases hrun : SimpleSqlMigration.run exec m db.schema with
    | none => rw [hrun] at h; cases h
    | some s' =>
      rw [hrun] at h
      cases c with
      | false => simp at h
      | true =>
        simp only [if_true] at h
        cases h
        simp [h0]

theorem countSerial_append_not_mem {l l' : List Int} {n : Int} (h : n ∉ l') :
    countSerial (l ++ l') n = countSerial l n := by
  have hnil : l'.filter (fun x => x == n) = [] :=
    List.filter_eq_nil_iff.mpr (fun a ha => by
      simp only [beq_iff_eq]
      exact fun he => h (he ▸ ha))
  simp [countSerial, List.filter_append, hnil]

theorem m001_serial : m001.migration.serial_number = 1 := rfl

theorem m002_serial : m002.migration.serial_number = 2 := rfl

theorem m003_serial : m003.migration.serial_number = 3 := rfl

theorem m004_serial : m004.migration.serial_number = 4 := rfl

theorem run_migrations_ok_inv {σ} {exec : String → σ → Option σ}
    {rebuild : σ → Option σ} {commits : Int → Bool} {db db' : DBState σ} {v : Int}
    (h : run_migrations exec rebuild commits db = .ok v db') :
    ∃ l, (prepare_migrations_table db).migrations = some l ∧
      db'.migrations =
        some (l ++ ([1, 2, 3, 4] : List Int).filter (fun k => countSerial l k == 0)) ∧
      current_version db' = some v := by
  obtain ⟨l, hl⟩ := prepare_migrations_some db
  refine ⟨l, hl, ?_⟩
  simp only [run_migrations] at h
  cases h1 : run_migration exec (commits 1) m001.migration (prepare_migrations_table db) with
  | failed d => rw [h1] at h; cases h
  | ok r1 d1 =>
  simp only [h1] at h
  have hl1 := run_migration_ledger hl h1
  rw [m001_serial] at hl1
  cases h2 : run_migration exec (commits 2) m002.migration d1 with
  | failed d => rw [h2] at h; cases h
  | ok r2 d2 =>
  simp only [h2] at h
  have hl2 := run_migration_ledger hl1 h2
  rw [m002_serial] at hl2
  -- the backfill step never touches the ledger
  have hstep : ∃ d2b : DBState σ, d2b.migrations = d2.migrations ∧
      (match run_migration exec (commits 3) m003.migration d2b with
        | .failed d => RunsOutcome.failed d
        | .ok _ d3 =>
          match run_migration exec (commits 4) m004.migration d3 with
          | .failed d => RunsOutcome.failed d
          | .ok _ d4 =>
            match current_version d4 with
            | none => RunsOutcome.failed d4
            | some v' => RunsOutcome.ok v' d4) = RunsOutcome.ok v db' := by
    cases r2 with
    | NotNeeded => exact ⟨d2, rfl, by simpa using h⟩
    | Upgraded =>
      simp only [reduceIte] at h
      cases hr : rebuild d2.schema with
      | none => simp only [hr] at h; cases h
      | some s' =>
        simp only [hr] at h
        exact ⟨⟨d2.migrations, s'⟩, rfl, h⟩
  obtain ⟨d2b, hl2b, h⟩ := hstep
  rw [← hl2b] at hl2
  cases h3 : run_migration exec (commits 3) m003.migration d2b with
  | failed d => rw [h3] at h; cases h
  | ok r3 d3 =>
  simp only [h3] at h
  have hl3 := run_migration_ledger hl2 h3
  rw [m003_serial] at hl3
  cases h4 : run_migration exec (commits 4) m004.migration d3 with
  | failed d => rw [h4] at h; cases h
  | ok r4 d4 =>
  simp only [h4] at h
  have hl4 := run_migration_ledger hl3 h4
  rw [m004_serial] at hl4
  cases hv : current_version d4 with
  | none => rw [hv] at h; cases h
  | some v' =>
  simp only [hv] at h
  cases h
  refine ⟨?_, hv⟩
  rw [hl4]
  -- collapse the four conditional appends into one filter over [1,2,3,4]
  have t2 : countSerial (l ++ if countSerial l 1 = 0 then [(1 : Int)] else []) 2 =
      countSerial l 2 := by
    by_cases hc1 : countSerial l 1 = 0 <;>
      simp [hc1, countSerial_append_not_mem (by decide : (2 : Int) ∉ [(1 : Int)])]
  rw [t2]
  have t3 : countSerial
      ((l ++ if countSerial l 1 = 0 then [(1 : Int)] else []) ++
        if countSerial l 2 = 0 then [(2 : Int)] else []) 3 = countSerial l 3 := by
    by_cases hc1 : countSerial l 1 = 0 <;> by_cases hc2 : countSerial l 2 = 0 <;>
      simp [hc1, hc2, List.append_assoc] <;>
      exact countSerial_append_not_mem (by decide)
  rw [t3]
  have t4 : countSerial
      (((l ++ if countSerial l 1 = 0 then [(1 : Int)] else []) ++
        if countSerial l 2 = 0 then [(2 : Int)] else []) ++
        if countSerial l 3 = 0 then [(3 : Int)] else []) 4 = countSerial l 4 := by
    by_cases hc1 : countSerial l 1 = 0 <;> by_cases hc2 : countSerial l 2 = 0 <;>
      by_cases hc3 : countSerial l 3 = 0 <;>
      simp [hc1, hc2, hc3, List.append_assoc] <;>
      exact countSerial_append_not_mem (by decide)
  rw [t4]
  by_cases hc1 : countSerial l 1 = 0 <;> by_cases hc2 : countSerial l 2 = 0 <;>
    by_cases hc3 : countSerial l 3 = 0 <;> by_cases hc4 : countSerial l 4 = 0 <;>
    simp [hc1, hc2, hc3, hc4, beq_iff_eq, List.filter_cons, List.filter_nil,
      List.append_assoc]

theorem mem_final_ledger {l : List Int} {k : Int} (hk : k ∈ ([1, 2, 3, 4] : List Int)) :
    k ∈ l ++ ([1, 2, 3, 4] : List Int).filter (fun x => countSerial l x == 0) := by
  by_cases hc : countSerial l k = 0
  · exact List.mem_append_right _ (List.mem_filter.mpr ⟨hk, by simp [hc]⟩)
  · exact List.mem_append_left _ (countSerial_pos.mp (Nat.pos_of_ne_zero hc))

theorem foldl_max_four (xs : List Int) :
    ∀ x : Int, (x = 4 ∨ (4 : Int) ∈ xs) → x ≤ 4 → (∀ y ∈ xs, y ≤ 4) →
      xs.foldl max x = 4 := by
  induction xs with
  | nil =>
    intro x hx _ _
    rcases hx with h | h
    · exact h
    · cases h
  | cons y ys ih =>
    intro x hx hxle hall
    have hyle : y ≤ 4 := hall y (by simp)
    have hys : ∀ z ∈ ys, z ≤ 4 := fun z hz => hall z (by simp [hz])
    have hnext : max x y = 4 ∨ (4 : Int) ∈ ys := by
      rcases hx with rfl | hmem
      · exact Or.inl (max_eq_left hyle)
      · rcases List.mem_cons.mp hmem with h | h
        · exact Or.inl (h ▸ max_eq_right hxle)
        · exact Or.inr h
    simpa [List.foldl_cons] using ih (max x y) hnext (max_le hxle hyle) hys

theorem max?_eq_four {L : List Int} (h4 : (4 : Int) ∈ L) (hle : ∀ x ∈ L, x ≤ 4) :
    L.max? = some 4 := by
  cases L with
  | nil => cases h4
  | cons x xs =>
    show some (xs.foldl max x) = some 4
    rw [foldl_max_four xs x
      (by rcases List.mem_cons.mp h4 with h | h
          · exact Or.inl h.symm
          · exact Or.inr h)
      (hle x (by simp)) (fun y hy => hle y (by simp [hy]))]

/-! ### Claim theorems -/

/-- C1: for a pending migration (its serial number not yet in the ledger),
if the statement sequence fails partway or the transaction fails to commit,
`run_migration` fails leaving the database exactly as it was: the ledger does
not contain the serial number and none of the schema changes are visible. -/
theorem run_migration_atomic {σ} (exec : String → σ → Option σ) (commitOk : Bool)
    (m : SimpleSqlMigration) (db : DBState σ) (l : List Int)
    (hl : db.migrations = some l)
    (hpend : countSerial l m.serial_number = 0)
    (hfail : SimpleSqlMigration.run exec m db.schema = none ∨ commitOk = false) :
    run_migration exec commitOk m db = .failed db ∧ m.serial_number ∉ l := by
  refine ⟨?_, countSerial_eq_zero.mp hpend⟩
  simp only [run_migration, hl]
  rw [if_neg (by omega)]
  rcases hfail with hrun | hcf
  · rw [hrun]
  · cases hrun2 : SimpleSqlMigration.run exec m db.schema with
    | none => rfl
    | some s' => simp [hcf]

/-- C1 witness: a two-statement migration whose second statement errors, run
against an empty ledger, fails and leaves the database untouched. -/
theorem run_migration_atomic_witness :
    run_migration execBoom true migTwo ⟨some [], 0⟩ = .failed ⟨some [], 0⟩ ∧
      (7 : Int) ∉ ([] : List Int) :=
  run_migration_atomic execBoom true migTwo ⟨some [], 0⟩ [] rfl (by decide)
    (Or.inl (by decide))

/-- C2: if `run_migrations` succeeded, running it again returns the same
version and the identical database state, with every `run_migration` call
returning `NotNeeded`. -/
theorem run_migrations_idempotent {σ} {exec : String → σ → Option σ}
    {rebuild : σ → Option σ} {commits : Int → Bool} {db db1 : DBState σ} {v : Int}
    (h : run_migrations exec rebuild commits db = .ok v db1) :
    run_migrations exec rebuild commits db1 = .ok v db1 ∧
    run_migration exec (commits 1) m001.migration db1 = .ok .NotNeeded db1 ∧
    run_migration exec (commits 2) m002.migration db1 = .ok .NotNeeded db1 ∧
    run_migration exec (commits 3) m003.migration db1 = .ok .NotNeeded db1 ∧
    run_migration exec (commits 4) m004.migration db1 = .ok .NotNeeded db1 := by
  obtain ⟨l, hl, hL, hv⟩ := run_migrations_ok_inv h
  have h1 := run_migration_notNeeded exec (commits 1) m001.migration db1 _ hL
    (by rw [m001_serial]; exact mem_final_ledger (by decide))
  have h2 := run_migration_notNeeded exec (commits 2) m002.migration db1 _ hL
    (by rw [m002_serial]; exact mem_final_ledger (by decide))
  have h3 := run_migration_notNeeded exec (commits 3) m003.migration db1 _ hL
    (by rw [m003_serial]; exact mem_final_ledger (by decide))
  have h4 := run_migration_notNeeded exec (commits 4) m004.migration db1 _ hL
    (by rw [m004_serial]; exact mem_final_ledger (by decide))
  refine ⟨?_, h1, h2, h3, h4⟩
  simp only [run_migrations, prepare_migrations_eq_self hL, h1, h2]
  rw [if_neg (by decide : ¬(MigrationResult.NotNeeded = MigrationResult.Upgraded))]
  simp only [h3, h4]
  have hv' : (l ++ List.filter (fun k => countSerial l k == 0) [1, 2, 3, 4]).max? = some v := by
    simpa [current_version, hL] using hv
  simp only [current_version, hL, hv']

/-- C2 witness: running the migrations on an already fully-migrated database
returns the same version with no change. -/
theorem run_migrations_idempotent_witness :
    run_migrations execU rebuildU commitsAll ⟨some [1, 2, 3, 4], ()⟩ =
      .ok 4 ⟨some [1, 2, 3, 4], ()⟩ :=
  (@run_migrations_idempotent Unit execU rebuildU commitsAll ⟨none, ()⟩
    ⟨some [1, 2, 3, 4], ()⟩ 4 (by decide)).1

/-- C3: a successful `run_migrations` appends to the ledger exactly the serial
numbers of 1..4 that were absent, in ascending order (the ledger list records
insertion order), and afterwards all four serial numbers are present. -/
theorem run_migrations_ordering {σ} {exec : String → σ → Option σ}
    {rebuild : σ → Option σ} {commits : Int → Bool} {db db' : DBState σ} {v : Int}
    {l : List Int}
    (hl : (prepare_migrations_table db).migrations = some l)
    (h : run_migrations exec rebuild commits db = .ok v db') :
    db'.migrations =
      some (l ++ ([1, 2, 3, 4] : List Int).filter (fun k => countSerial l k == 0)) ∧
    ∀ k : Int, k ∈ ([1, 2, 3, 4] : List Int) →
      k ∈ l ++ ([1, 2, 3, 4] : List Int).filter (fun k => countSerial l k == 0) := by
  obtain ⟨l', hl', hL, _⟩ := run_migrations_ok_inv h
  have : l = l' := by
    rw [hl] at hl'
    exact Option.some.inj hl'
  subst this
  exact ⟨hL, fun k hk => mem_final_ledger hk⟩

/-- C3 witness: with only 1 and 3 applied, the run appends 2 then 4 (never 4
before 2) and afterwards all four serials are in the ledger. -/
theorem run_migrations_ordering_witness :
    (DBState.mk (some [1, 3, 2, 4]) ()).migrations =
      some ([1, 3] ++ ([1, 2, 3, 4] : List Int).filter (fun k => countSerial [1, 3] k == 0)) ∧
    ∀ k : Int, k ∈ ([1, 2, 3, 4] : List Int) →
      k ∈ [1, 3] ++ ([1, 2, 3, 4] : List Int).filter (fun k => countSerial [1, 3] k == 0) :=
  @run_migrations_ordering Unit execU rebuildU commitsAll ⟨some [1, 3], ()⟩
    ⟨some [1, 3, 2, 4], ()⟩ 4 [1, 3] (by decide) (by decide)

/-- C6 counterexample: with a backfill procedure that always fails, a first run
commits m002 and then fails in the backfill; the next run succeeds without the
backfill ever succeeding — so it did not invoke the backfill again (an
invocation would have failed the run), and the schema (0) shows no backfill
effect. -/
theorem backfill_not_retried_counterexample :
    run_migrations execN rebuildNone commitsAll ⟨none, 0⟩ = .failed ⟨some [1, 2], 0⟩ ∧
    run_migrations execN rebuildNone commitsAll ⟨some [1, 2], 0⟩ =
      .ok 4 ⟨some [1, 2, 3, 4], 0⟩ :=
  ⟨by decide, by decide⟩

/-- C6 (amended): once m002's serial number is recorded in the ledger — in
particular after a run in which m002 committed but the backfill failed —
`run_migrations` never invokes the backfill again: its outcome is identical
for every backfill procedure. The backfill runs only in a run where m002
itself transitions from unapplied to applied. -/
theorem backfill_skipped_when_recorded {σ} (exec : String → σ → Option σ)
    (commits : Int → Bool) (db : DBState σ) (l : List Int)
    (hl : db.migrations = some l) (h2 : (2 : Int) ∈ l)
    (r1 r2 : σ → Option σ) :
    run_migrations exec r1 commits db = run_migrations exec r2 commits db := by
  simp only [run_migrations, prepare_migrations_eq_self hl]
  cases h1 : run_migration exec (commits 1) m001.migration db with
  | failed d => rfl
  | ok rr d1 =>
    have hld1 := run_migration_ledger hl h1
    rw [m001_serial] at hld1
    have hnn := run_migration_notNeeded exec (commits 2) m002.migration d1 _ hld1
      (by rw [m002_serial]; exact List.mem_append_left _ h2)
    simp only [hnn]
    have hne : ¬(MigrationResult.NotNeeded = MigrationResult.Upgraded) := by decide
    rw [if_neg hne, if_neg hne]

/-- C6 witness: with m002 already recorded, the run is the same under an
always-failing backfill and under a schema-modifying one. -/
theorem backfill_skipped_when_recorded_witness :
    run_migrations execN rebuildNone commitsAll ⟨some [2], 0⟩ =
      run_migrations execN rebuildBump commitsAll ⟨some [2], 0⟩ :=
  backfill_skipped_when_recorded execN commitsAll ⟨some [2], 0⟩ [2] rfl (by decide)
    rebuildNone rebuildBump

/-- C9 counterexample: a database whose ledger already holds a serial number 9
greater than any compiled-in descriptor upgrades successfully but reports
version 9, not the highest compiled serial 4. -/
theorem version_not_highest_counterexample :
    run_migrations execU rebuildU commitsAll ⟨some [1, 2, 3, 4, 9], ()⟩ =
      .ok 9 ⟨some [1, 2, 3, 4, 9], ()⟩ ∧ (9 : Int) ≠ 4 :=
  ⟨by decide, by decide⟩

/-- C9 (amended): after a successful `run_migrations` the ledger table exists
and the returned value is the maximum serial number recorded in it; when no
pre-existing ledger entry exceeds 4 (the highest descriptor serial compiled
into the binary), that maximum is exactly 4. On failure, startup errors
instead of returning. -/
theorem run_migrations_version {σ} {exec : String → σ → Option σ}
    {rebuild : σ → Option σ} {commits : Int → Bool} {db db' : DBState σ} {v : Int}
    (h : run_migrations exec rebuild commits db = .ok v db') :
    (∃ L, db'.migrations = some L ∧ L.max? = some v) ∧
    ((∀ l x, (prepare_migrations_table db).migrations = some l → x ∈ l → x ≤ 4) →
      v = 4) := by
  obtain ⟨l, hl, hL, hv⟩ := run_migrations_ok_inv h
  have hv' : (l ++ List.filter (fun k => countSerial l k == 0) [1, 2, 3, 4]).max? =
      some v := by
    simpa [current_version, hL] using hv
  refine ⟨⟨_, hL, hv'⟩, ?_⟩
  intro hbound
  have hle : ∀ x ∈ l ++ List.filter (fun k => countSerial l k == 0) [1, 2, 3, 4],
      x ≤ 4 := by
    intro x hx
    rcases List.mem_append.mp hx with hxl | hxf
    · exact hbound l x hl hxl
    · have hx4 := (List.mem_filter.mp hxf).1
      simp only [List.mem_cons, List.not_mem_nil, or_false] at hx4
      rcases hx4 with rfl | rfl | rfl | rfl <;> omega
  have hmax := max?_eq_four (mem_final_ledger (by decide)) hle
  rw [hmax] at hv'
  exact (Option.some.inj hv').symm

/-- C9 witness: from a fresh database the run succeeds, the ledger exists with
maximum 4, and the reported version is 4. -/
theorem run_migrations_version_witness :
    (∃ L, (DBState.mk (some [1, 2, 3, 4]) ()).migrations = some L ∧
      L.max? = some (4 : Int)) ∧ (4 : Int) = 4 := by
  have h := @run_migrations_version Unit execU rebuildU commitsAll ⟨none, ()⟩
    ⟨some [1, 2, 3, 4], ()⟩ 4 (by decide)
  refine ⟨h.1, h.2 ?_⟩
  intro l x hl hx
  simp only [prepare_migrations_table] at hl
  cases hl
  cases hx

/-- C4: for a retained tag (name matches the single-character grammar), the
value is stored in `value_hex` iff it is even-byte-length, all-lowercase hex;
in that case `value_hex` holds the byte decoding and hex-encoding those bytes
reconstructs the original string exactly; any other value is stored verbatim in
`value` and `value_hex` stays NULL. -/
theorem tag_hex_packing (hasUnique : Bool) (event_id : List Nat)
    (tagname tagval : String) (rest : List String) (table : List TagRow)
    (hname : (single_char_tagname tagname).isSome = true) :
    (tagval.utf8ByteSize % 2 = 0 ∧ is_lower_hex tagval = true →
      ∃ bs, hexDecode tagval = some bs ∧ hexEncode bs = tagval ∧
        processTag hasUnique event_id (tagname :: tagval :: rest) table =
          insertTag hasUnique table ⟨event_id, tagname, none, some bs⟩) ∧
    (¬(tagval.utf8ByteSize % 2 = 0 ∧ is_lower_hex tagval = true) →
      processTag hasUnique event_id (tagname :: tagval :: rest) table =
        insertTag hasUnique table ⟨event_id, tagname, some (strBytes tagval), none⟩) := by
  obtain ⟨c, hc⟩ := Option.isSome_iff_exists.mp hname
  constructor
  · rintro ⟨heven, hlow⟩
    obtain ⟨bs, hdec, henc⟩ := hex_roundtrip heven hlow
    refine ⟨bs, hdec, henc, ?_⟩
    simp only [processTag]
    rw [if_neg (by simp [hc]), if_pos (by simp [heven, hlow]), hdec]
  · intro hng
    simp only [processTag]
    rw [if_neg (by simp [hc]), if_neg]
    intro hcontra
    simp only [Bool.and_eq_true, Nat.beq_eq_true_eq] at hcontra
    exact hng hcontra

/-- C4 witness: `"deadbeef"` is hex-packed into the 4-byte decoding, whose
re-encoding is exactly `"deadbeef"`. -/
theorem tag_hex_packing_witness :
    ∃ bs, hexDecode "deadbeef" = some bs ∧ hexEncode bs = "deadbeef" ∧
      processTag false [7] ["e", "deadbeef"] [] =
        insertTag false [] ⟨[7], "e", none, some bs⟩ :=
  (tag_hex_packing false [7] "e" "deadbeef" [] [] (by decide)).1 ⟨by decide, by decide⟩

/-- C5 counterexample: when parsing an event's content fails, `rebuild_tags`
returns an error, but the tag table keeps its pre-existing row — it is NOT left
in the deleted state (all rows removed) that the claim asserts, because the
delete was part of the write transaction that was never committed. -/
theorem rebuild_tags_failure_counterexample :
    rebuild_tags parseNone false [ev0] [tr0] = .err [tr0] ∧
      [tr0] ≠ ([] : List TagRow) :=
  ⟨by decide, by decide⟩

/-- C5 (amended): if parsing fails (or the streaming loop otherwise errors),
`rebuild_tags` errors without committing the write scope; since the initial
`DELETE FROM tag` is part of that same uncommitted scope, the tag table is left
in its original pre-backfill state, its rows intact — neither deleted nor
rebuilt. -/
theorem rebuild_tags_aborts_uncommitted
    (parse : List Nat → Option (List (List String))) (hasUnique : Bool)
    (events : List EventRow) (tags0 : List TagRow)
    (h : rebuildLoop parse hasUnique events [] = none) :
    rebuild_tags parse hasUnique events tags0 = .err tags0 := by
  simp only [rebuild_tags, h]

/-- C5 witness: a failing parse aborts the backfill and the pre-existing tag
row survives. -/
theorem rebuild_tags_aborts_uncommitted_witness :
    rebuild_tags parseNone false [ev0] [tr0] = .err [tr0] :=
  rebuild_tags_aborts_uncommitted parseNone false [ev0] [tr0] (by decide)

/-- C7: evaluating the backfill at an event whose content lists the same
(name, value) pair twice, in the state it actually runs in during startup (no
unique index on `tag`, since m003 runs only after the backfill): two identical
rows are inserted, not one — `ON CONFLICT DO NOTHING` has no unique index to
conflict with. -/
theorem duplicate_tag_two_rows :
    rebuild_tags parseDup false [ev0] [] =
      .ok [⟨[7], "p", some (strBytes "QQ"), none⟩,
           ⟨[7], "p", some (strBytes "QQ"), none⟩] := by
  decide

/-- C8: a tag entry with fewer than two elements, or whose first element does
not match the single-character tag-name grammar, produces no tag row: the
per-tag step leaves the table unchanged and the per-event pipeline (with its
length filter) inserts nothing for it. -/
theorem malformed_tag_discarded (hasUnique : Bool) (event_id : List Nat)
    (t : List String) (table : List TagRow)
    (h : t.length < 2 ∨ single_char_tagname (t.headD "") = none) :
    processTag hasUnique event_id t table = table ∧
    processEventTags hasUnique event_id [t] table = table := by
  rcases h with hlen | hname
  · cases t with
    | nil => exact ⟨rfl, rfl⟩
    | cons a t' =>
      cases t' with
      | nil => exact ⟨rfl, rfl⟩
      | cons b t'' => simp only [List.length_cons] at hlen; omega
  · cases t with
    | nil => exact ⟨rfl, rfl⟩
    | cons a t' =>
      cases t' with
      | nil => exact ⟨rfl, rfl⟩
      | cons b t'' =>
        simp only [List.headD_cons] at hname
        have hpt : processTag hasUnique event_id (a :: b :: t'') table = table := by
          simp only [processTag]
          rw [if_pos (by simp [hname])]
        refine ⟨hpt, ?_⟩
        have hkeep : ((a :: b :: t'') : List String).length > 1 := by
          simp only [List.length_cons]
          omega
        simp only [processEventTags, List.filter_cons, List.filter_nil,
          decide_eq_true hkeep, if_true, List.foldl_cons, List.foldl_nil, hpt]

/-- C8 witness: the single-element entry `["x"]` and the two-element entry with
unrecognized name `["ab", "y"]` are both discarded. -/
theorem malformed_tag_discarded_witness :
    (processTag false [7] ["x"] [] = [] ∧ processEventTags false [7] [["x"]] [] = []) ∧
    (processTag false [7] ["ab", "y"] [] = [] ∧
      processEventTags false [7] [["ab", "y"]] [] = []) :=
  ⟨malformed_tag_discarded false [7] ["x"] [] (Or.inl (by decide)),
   malformed_tag_discarded false [7] ["ab", "y"] [] (Or.inr (by decide))⟩

/-- C10: a value passing the losslessness guard (even byte length, all
lowercase hex) can always be hex-decoded — `hex::decode(...).ok()` is `Some`,
so the NULL branch of the `value_hex` bind is unreachable — and the row the hex
branch inserts carries that non-NULL decoding in `value_hex`. -/
theorem hexDecode_total_under_guard (s : String)
    (heven : s.utf8ByteSize % 2 = 0) (hlow : is_lower_hex s = true) :
    (hexDecode s).isSome = true ∧
    ∀ hasUnique event_id tagname (rest : List String) table,
      (single_char_tagname tagname).isSome = true →
      processTag hasUnique event_id (tagname :: s :: rest) table =
        insertTag hasUnique table ⟨event_id, tagname, none, hexDecode s⟩ ∧
        (hexDecode s) ≠ none := by
  obtain ⟨bs, hdec, _⟩ := hex_roundtrip heven hlow
  refine ⟨by simp [hdec], ?_⟩
  intro hasUnique event_id tagname rest table hname
  obtain ⟨c, hc⟩ := Option.isSome_iff_exists.mp hname
  refine ⟨?_, by simp [hdec]⟩
  simp only [processTag]
  rw [if_neg (by simp [hc]), if_pos (by simp [heven, hlow])]

/-- C10 witness: `"abc123"` passes the guard, decodes to `Some`, and the hex
branch inserts its non-NULL decoding. -/
theorem hexDecode_total_under_guard_witness :
    (hexDecode "abc123").isSome = true ∧
    processTag false [7] ["e", "abc123"] [] =
      insertTag false [] ⟨[7], "e", none, hexDecode "abc123"⟩ ∧
    hexDecode "abc123" ≠ none := by
  have h := hexDecode_total_under_guard "abc123" (by decide) (by decide)
  exact ⟨h.1, h.2 false [7] "e" [] [] (by decide)⟩

end NostrPg
